import Mathlib

/-!
Verification of the adaptive image compressor in
`src/services/imageService.ts` (`compressImage` and its inner retry
loop `tryCompress`).

Numbers (quality, sizes in KB, pixel dimensions) are modelled as exact
rationals `ℚ`.  The lossy encoder (`canvas.toBlob`) is abstracted as a
function from the resized canvas dimensions and a quality value to an
optional encoded size in kilobytes (`none` models the "Canvas to Blob
conversion failed" case); a successful compression is recorded as the
accepted attempt's quality and measured size (the subsequent base64
conversion of the accepted blob is an injective post-processing step
that no claim inspects).
-/

namespace ImageService

/-- Outcome of a compression request: either the accepted attempt
(quality handed to the encoder and measured size in KB), a rejection
with an error message produced inside the retry loop, or the
rejection raised by `img.onerror` when the source does not decode. -/
inductive CompressResult where
  | success (quality : ℚ) (sizeKB : ℚ)
  | failure (msg : String)
  | decodeFailure
  deriving DecidableEq, Repr

/-- The error message built at `imageService.ts:49` when the attempt
budget is exhausted; it interpolates both requested bounds. -/
def sizeErrMsg (minSizeKB maxSizeKB : ℚ) : String :=
  s!"Could not compress image to be between {minSizeKB}KB and {maxSizeKB}KB. Please try a different image."

/-- The error message at `imageService.ts:55` for a failed
`canvas.toBlob` call. -/
def blobErrMsg : String := "Canvas to Blob conversion failed."

/-- The retry loop `tryCompress` of `imageService.ts:47-83`.
`enc` abstracts `canvas.toBlob` on the already-resized canvas:
given a quality it returns the blob's size in KB, or `none` when the
conversion fails.  The JS code checks `attempts <= 0` before encoding,
so the `0` case rejects without consuming an encode attempt; otherwise
one encode happens and, following the source: size above `maxSizeKB`
retries at `quality - 0.1`, size below `minSizeKB` is accepted, and a
size within the window is accepted. -/
def tryCompress (enc : ℚ → Option ℚ) (minSizeKB maxSizeKB : ℚ) :
    ℚ → ℕ → CompressResult
  | _, 0 => .failure (sizeErrMsg minSizeKB maxSizeKB)
  | quality, attempts + 1 =>
    match enc quality with
    | none => .failure blobErrMsg
    | some sizeKB =>
      if sizeKB > maxSizeKB then
        tryCompress enc minSizeKB maxSizeKB (quality - 1/10) attempts
      else if sizeKB < minSizeKB then
        .success quality sizeKB
      else
        .success quality sizeKB

/-- The list of quality values handed to the encoder by
`tryCompress`, in order.  Same recursion structure as `tryCompress`:
an attempt whose blob is `none` or whose size leaves the `> maxSizeKB`
branch is the last one. -/
def attemptTrace (enc : ℚ → Option ℚ) (minSizeKB maxSizeKB : ℚ) :
    ℚ → ℕ → List ℚ
  | _, 0 => []
  | quality, attempts + 1 =>
    match enc quality with
    | none => [quality]
    | some sizeKB =>
      if sizeKB > maxSizeKB then
        quality :: attemptTrace enc minSizeKB maxSizeKB (quality - 1/10) attempts
      else if sizeKB < minSizeKB then
        [quality]
      else
        [quality]

/-- The resize step of `imageService.ts:26-43`: bounding box 1024x1024,
applied only when the larger dimension exceeds its bound; the other
dimension is scaled proportionally (the source multiplies by
`MAX / old` before overwriting, so the old value is used). -/
def resize (width height : ℚ) : ℚ × ℚ :=
  let MAX_WIDTH : ℚ := 1024
  let MAX_HEIGHT : ℚ := 1024
  if width > height then
    if width > MAX_WIDTH then (MAX_WIDTH, height * (MAX_WIDTH / width))
    else (width, height)
  else
    if height > MAX_HEIGHT then (width * (MAX_HEIGHT / height), MAX_HEIGHT)
    else (width, height)

/-- An input file: `decoded` is `some (width, height)` when the source
decodes as an image (`img.onload`) and `none` when it does not
(`img.onerror`); `enc` abstracts `canvas.toBlob` for a canvas of the
given dimensions holding this image. -/
structure ImageFile where
  decoded : Option (ℚ × ℚ)
  enc : ℚ × ℚ → ℚ → Option ℚ

/-- `compressImage` of `imageService.ts:10-92`: decode, resize once,
then start the retry loop at quality 0.9 with a budget of 10 attempts
(`imageService.ts:86`). -/
def compressImage (file : ImageFile) (minSizeKB maxSizeKB : ℚ) :
    CompressResult :=
  match file.decoded with
  | none => .decodeFailure
  | some (w, h) =>
    tryCompress (file.enc (resize w h)) minSizeKB maxSizeKB (9/10) 10

/-- The quality values handed to the encoder during one `compressImage`
invocation; empty when the source does not decode. -/
def compressTrace (file : ImageFile) (minSizeKB maxSizeKB : ℚ) : List ℚ :=
  match file.decoded with
  | none => []
  | some (w, h) =>
    attemptTrace (file.enc (resize w h)) minSizeKB maxSizeKB (9/10) 10

/-! ### Sample inputs used to exercise the theorems -/

/-- A 2000x1000 image whose encoding is 100 KB at every quality. -/
def oversizedFile : ImageFile :=
  { decoded := some (2000, 1000), enc := fun _ _ => some 100 }

/-- A 500x800 image whose encoding is 10 KB at every quality. -/
def tinyFile : ImageFile :=
  { decoded := some (500, 800), enc := fun _ _ => some 10 }

/-- A 2000x1000 image encoding to 100 KB above quality 0.85 and to
40 KB at or below it. -/
def stepFile : ImageFile :=
  { decoded := some (2000, 1000),
    enc := fun _ q => if q > 17/20 then some 100 else some 40 }

/-- A source that does not decode as an image. -/
def badFile : ImageFile := { decoded := none, enc := fun _ _ => none }

/-- A 100x100 image whose encoding is 100 KB at every quality. -/
def invertedFile : ImageFile :=
  { decoded := some (100, 100), enc := fun _ _ => some 100 }

/-! ### Helper lemmas about the retry loop -/

/-- The `i`-th quality value of a retry sequence that starts at `q`:
`q - i * 0.1`. -/
def qualitySeq (q : ℚ) (i : ℕ) : ℚ := q - (i : ℚ) * (1/10)

theorem qualitySeq_zero (q : ℚ) : qualitySeq q 0 = q := by
  simp [qualitySeq]

theorem qualitySeq_shift (q : ℚ) (j : ℕ) :
    qualitySeq (q - 1/10) j = qualitySeq q (j + 1) := by
  simp only [qualitySeq]
  push_cast
  ring

/-- The trace of attempted qualities is an arithmetic sequence
starting at the initial quality and stepping down by `1/10`: it equals
`q, q - 1/10, …` of some length at most the budget. -/
theorem attemptTrace_eq_range_map (enc : ℚ → Option ℚ) (m M : ℚ) :
    ∀ (n : ℕ) (q : ℚ), ∃ k ≤ n,
      attemptTrace enc m M q n = (List.range k).map (qualitySeq q) := by
  intro n
  induction n with
  | zero => intro q; exact ⟨0, le_refl 0, by simp [attemptTrace]⟩
  | succ n ih =>
    intro q
    rw [attemptTrace]
    cases henc : enc q with
    | none =>
      refine ⟨1, by omega, ?_⟩
      simp [List.range_succ, qualitySeq_zero]
    | some s =>
      by_cases hM : s > M
      · obtain ⟨k, hk, htr⟩ := ih (q - 1/10)
        refine ⟨k + 1, by omega, ?_⟩
        simp only [hM, if_pos, htr, List.range_succ_eq_map, List.map_cons,
          List.map_map, qualitySeq_zero, List.cons.injEq, true_and]
        refine List.map_congr_left ?_
        intro i _
        simp only [Function.comp_apply]
        exact qualitySeq_shift q i
      · by_cases hm : s < m
        · refine ⟨1, by omega, ?_⟩
          simp [hM, hm, List.range_succ, qualitySeq_zero]
        · refine ⟨1, by omega, ?_⟩
          simp [hM, hm, List.range_succ, qualitySeq_zero]

/-- If the first `k` attempts are all oversized and the `(k+1)`-st
encode yields a size at most `maxSizeKB`, the loop stops there and
returns that attempt as success. -/
theorem tryCompress_accept (enc : ℚ → Option ℚ) (m M s : ℚ) :
    ∀ (k n : ℕ) (q : ℚ), k < n →
      (∀ j < k, ∃ t, enc (qualitySeq q j) = some t ∧ t > M) →
      enc (qualitySeq q k) = some s → s ≤ M →
      tryCompress enc m M q n = .success (qualitySeq q k) s := by
  intro k
  induction k with
  | zero =>
    intro n q hkn _ hks hsM
    obtain ⟨n', rfl⟩ := Nat.exists_eq_succ_of_ne_zero (by omega : n ≠ 0)
    rw [tryCompress]
    rw [qualitySeq_zero] at hks ⊢
    rw [hks]
    simp only [not_lt.mpr hsM, if_false]
    by_cases hm : s < m <;> simp [hm]
  | succ k ih =>
    intro n q hkn hprev hks hsM
    obtain ⟨n', rfl⟩ := Nat.exists_eq_succ_of_ne_zero (by omega : n ≠ 0)
    obtain ⟨t, ht, htM⟩ := hprev 0 (Nat.succ_pos k)
    rw [qualitySeq_zero] at ht
    rw [tryCompress, ht]
    simp only [htM, if_pos]
    have h1 := ih n' (q - 1/10) (by omega)
      (fun j hj => by rw [qualitySeq_shift]; exact hprev (j + 1) (by omega))
      (by rw [qualitySeq_shift]; exact hks) hsM
    rw [h1, qualitySeq_shift]

/-- If every encode within the budget is oversized, the loop exhausts
the budget, fails with the bounds-naming message, and the number of
encode attempts equals the budget. -/
theorem tryCompress_exhaust (enc : ℚ → Option ℚ) (m M : ℚ) :
    ∀ (n : ℕ) (q : ℚ),
      (∀ j < n, ∃ t, enc (qualitySeq q j) = some t ∧ t > M) →
      tryCompress enc m M q n = .failure (sizeErrMsg m M) ∧
      (attemptTrace enc m M q n).length = n := by
  intro n
  induction n with
  | zero => intro q _; exact ⟨rfl, rfl⟩
  | succ n ih =>
    intro q hall
    obtain ⟨t, ht, htM⟩ := hall 0 (Nat.succ_pos n)
    rw [qualitySeq_zero] at ht
    have h1 := ih (q - 1/10)
      (fun j hj => by rw [qualitySeq_shift]; exact hall (j + 1) (by omega))
    rw [tryCompress, attemptTrace, ht]
    simp only [htM, if_pos, List.length_cons]
    exact ⟨h1.1, by rw [h1.2]⟩

/-- Unfolding `compressImage` on a source that decodes. -/
theorem compressImage_eq_of_decoded (file : ImageFile) (m M w h : ℚ)
    (hdec : file.decoded = some (w, h)) :
    compressImage file m M =
      tryCompress (file.enc (resize w h)) m M (9/10) 10 := by
  unfold compressImage
  rw [hdec]

/-- Unfolding `compressImage` on a source that does not decode. -/
theorem compressImage_eq_of_not_decoded (file : ImageFile) (m M : ℚ)
    (hdec : file.decoded = none) :
    compressImage file m M = .decodeFailure := by
  unfold compressImage
  rw [hdec]

/-- Unfolding `compressTrace` on a source that decodes. -/
theorem compressTrace_eq_of_decoded (file : ImageFile) (m M w h : ℚ)
    (hdec : file.decoded = some (w, h)) :
    compressTrace file m M =
      attemptTrace (file.enc (resize w h)) m M (9/10) 10 := by
  unfold compressTrace
  rw [hdec]

/-- Unfolding `compressTrace` on a source that does not decode. -/
theorem compressTrace_eq_of_not_decoded (file : ImageFile) (m M : ℚ)
    (hdec : file.decoded = none) :
    compressTrace file m M = [] := by
  unfold compressTrace
  rw [hdec]

/-- An attempt whose size is at most `maxSizeKB` is the last one. -/
theorem attemptTrace_stop (enc : ℚ → Option ℚ) (m M q s : ℚ) (n : ℕ)
    (henc : enc q = some s) (hsM : s ≤ M) :
    attemptTrace enc m M q (n + 1) = [q] := by
  rw [attemptTrace, henc]
  simp only [not_lt.mpr hsM, if_false]
  by_cases hm : s < m <;> simp [hm]

/-- When every encode succeeds, the loop either accepts some attempt
whose size is at most `maxSizeKB` or exhausts the budget with the
bounds-naming failure. -/
theorem tryCompress_total_outcome (enc : ℚ → Option ℚ) (m M : ℚ)
    (henc : ∀ q, ∃ s, enc q = some s) :
    ∀ (n : ℕ) (q : ℚ),
      (∃ qa s, tryCompress enc m M q n = .success qa s ∧ s ≤ M) ∨
      tryCompress enc m M q n = .failure (sizeErrMsg m M) := by
  intro n
  induction n with
  | zero => intro q; exact Or.inr rfl
  | succ n ih =>
    intro q
    obtain ⟨s, hs⟩ := henc q
    rw [tryCompress, hs]
    by_cases hM : s > M
    · simp only [hM, if_pos]
      exact ih (q - 1/10)
    · refine Or.inl ⟨q, s, ?_, not_lt.mp hM⟩
      simp only [hM, if_false]
      by_cases hm : s < m <;> simp [hm]

/-- Neither output dimension of `resize` exceeds its input. -/
theorem resize_le (w h : ℚ) (hw : 0 < w) (hh : 0 < h) :
    (resize w h).1 ≤ w ∧ (resize w h).2 ≤ h := by
  rw [resize]
  by_cases h1 : w > h
  · by_cases h2 : w > 1024
    · simp only [h1, h2, if_true]
      constructor
      · simpa using h2.le
      · have hd : (1024 : ℚ) / w ≤ 1 := (div_le_one (by linarith)).mpr h2.le
        simpa using mul_le_of_le_one_right hh.le hd
    · simp [h1, h2]
  · by_cases h2 : h > 1024
    · simp only [h1, h2, if_true, if_false]
      constructor
      · have hd : (1024 : ℚ) / h ≤ 1 := (div_le_one (by linarith)).mpr h2.le
        simpa using mul_le_of_le_one_right hw.le hd
      · simpa using h2.le
    · simp [h1, h2]

/-! ### Claim theorems -/

/-- C1: for every input image and every window `[minSizeKB, maxSizeKB]`,
if some quality in the sequence 0.9, 0.8, … reached within the ten
encode attempts yields an encoded size at most `maxSizeKB` (all earlier
attempts being oversized), then `compressImage` returns success, and
the accepted attempt's measured size is at most `maxSizeKB`. -/
theorem compressImage_success_of_reachable_quality (file : ImageFile)
    (m M w h s : ℚ) (k : ℕ) (hdec : file.decoded = some (w, h))
    (hk : k < 10)
    (hprev : ∀ j < k,
      ∃ t, file.enc (resize w h) (qualitySeq (9/10) j) = some t ∧ t > M)
    (hks : file.enc (resize w h) (qualitySeq (9/10) k) = some s)
    (hsM : s ≤ M) :
    compressImage file m M = .success (qualitySeq (9/10) k) s ∧ s ≤ M := by
  refine ⟨?_, hsM⟩
  rw [compressImage_eq_of_decoded file m M w h hdec]
  exact tryCompress_accept (file.enc (resize w h)) m M s k 10 (9/10) hk
    hprev hks hsM

theorem compressImage_success_of_reachable_quality_witness :
    compressImage stepFile 20 50 = .success (qualitySeq (9/10) 1) 40 ∧
    (40 : ℚ) ≤ 50 :=
  compressImage_success_of_reachable_quality stepFile 20 50 2000 1000 40 1
    rfl (by norm_num)
    (by
      intro j hj
      obtain rfl : j = 0 := by omega
      exact ⟨100, by norm_num [stepFile, qualitySeq], by norm_num⟩)
    (by norm_num [stepFile, qualitySeq])
    (by norm_num)

/-- C2: for every input whose very first encode attempt (quality 0.9)
yields a size below `minSizeKB`, `compressImage` returns that first
attempt as success, performing no further encode attempts (the trace
is exactly `[0.9]`, so quality is never increased and the undersized
result is not rejected). -/
theorem compressImage_accepts_undersized_first_attempt (file : ImageFile)
    (m M w h s : ℚ) (hdec : file.decoded = some (w, h)) (hmM : m ≤ M)
    (henc : file.enc (resize w h) (9/10) = some s) (hs : s < m) :
    compressImage file m M = .success (9/10) s ∧
    compressTrace file m M = [9/10] := by
  have hsM : s ≤ M := le_of_lt (lt_of_lt_of_le hs hmM)
  constructor
  · rw [compressImage_eq_of_decoded file m M w h hdec]
    have h0 := tryCompress_accept (file.enc (resize w h)) m M s 0 10 (9/10)
      (by omega) (by omega) (by rw [qualitySeq_zero]; exact henc) hsM
    rwa [qualitySeq_zero] at h0
  · rw [compressTrace_eq_of_decoded file m M w h hdec]
    exact attemptTrace_stop (file.enc (resize w h)) m M (9/10) s 9 henc hsM

theorem compressImage_accepts_undersized_first_attempt_witness :
    compressImage tinyFile 20 50 = .success (9/10) 10 ∧
    compressTrace tinyFile 20 50 = [9/10] :=
  compressImage_accepts_undersized_first_attempt tinyFile 20 50 500 800 10
    rfl (by norm_num) rfl (by norm_num)

/-- C3: when each of the ten encode attempts yields a size above
`maxSizeKB`, `compressImage` fails with the error message that
interpolates both requested bounds (`sizeErrMsg`), no partial result is
returned, and exactly ten encode attempts were performed. -/
theorem compressImage_exhausted_names_bounds (file : ImageFile)
    (m M w h : ℚ) (hdec : file.decoded = some (w, h))
    (hall : ∀ j < 10,
      ∃ t, file.enc (resize w h) (qualitySeq (9/10) j) = some t ∧ t > M) :
    compressImage file m M = .failure (sizeErrMsg m M) ∧
    (compressTrace file m M).length = 10 := by
  have h1 := tryCompress_exhaust (file.enc (resize w h)) m M 10 (9/10) hall
  constructor
  · rw [compressImage_eq_of_decoded file m M w h hdec]
    exact h1.1
  · rw [compressTrace_eq_of_decoded file m M w h hdec]
    exact h1.2

theorem compressImage_exhausted_names_bounds_witness :
    compressImage oversizedFile 20 50 = .failure (sizeErrMsg 20 50) ∧
    (compressTrace oversizedFile 20 50).length = 10 :=
  compressImage_exhausted_names_bounds oversizedFile 20 50 2000 1000 rfl
    (fun j _ => ⟨100, rfl, by norm_num⟩)

/-- C4: within one invocation the qualities passed to the encoder form
an initial segment of the arithmetic sequence 0.9, 0.8, 0.7, …
(`qualitySeq (9/10)`), of length at most 10; consecutive attempt
qualities differ by exactly 0.10 downward. -/
theorem compressImage_quality_sequence (file : ImageFile) (m M : ℚ) :
    ∃ k, k ≤ 10 ∧
      compressTrace file m M = (List.range k).map (qualitySeq (9/10)) ∧
      ∀ i : ℕ, qualitySeq (9/10) (i + 1) = qualitySeq (9/10) i - 1/10 := by
  have harith : ∀ i : ℕ,
      qualitySeq (9/10) (i + 1) = qualitySeq (9/10) i - 1/10 := by
    intro i
    simp only [qualitySeq]
    push_cast
    ring
  cases hdec : file.decoded with
  | none =>
    refine ⟨0, by omega, ?_, harith⟩
    rw [compressTrace_eq_of_not_decoded file m M hdec]
    simp
  | some wh =>
    obtain ⟨w, h⟩ := wh
    rw [compressTrace_eq_of_decoded file m M w h hdec]
    obtain ⟨k, hk, htr⟩ :=
      attemptTrace_eq_range_map (file.enc (resize w h)) m M 10 (9/10)
    exact ⟨k, hk, htr, harith⟩

/-- C5 counterexample: a 500x800 input is NOT resized to 640x1024;
since both dimensions are within the 1024 bound the resize step leaves
it at 500x800. -/
theorem resize_500_800_ne_640_1024 :
    resize 500 800 = ((500 : ℚ), (800 : ℚ)) ∧
    ¬ resize 500 800 = ((640 : ℚ), (1024 : ℚ)) := by
  constructor <;> norm_num [resize]

/-- C5 amended: for a 500x800 input both dimensions are at most the
1024 bound, so the resize step leaves the image unchanged at 500x800;
the height-bound scaling (width = w * (1024 / h), height = 1024) only
applies when the height exceeds 1024, e.g. a 1000x1600 input yields
640x1024. -/
theorem resize_500_800_unchanged_height_bound_needs_overflow :
    resize 500 800 = ((500 : ℚ), (800 : ℚ)) ∧
    resize 1000 1600 = ((640 : ℚ), (1024 : ℚ)) := by
  constructor <;> norm_num [resize]

/-- C6: for every input image with positive dimensions the resize step
never increases either dimension, and a 2000x1000 input is resized to
1024x512 (width-bound path, aspect preserved). -/
theorem resize_never_enlarges (w h : ℚ) (hw : 0 < w) (hh : 0 < h) :
    (resize w h).1 ≤ w ∧ (resize w h).2 ≤ h ∧
    resize 2000 1000 = ((1024 : ℚ), (512 : ℚ)) :=
  ⟨(resize_le w h hw hh).1, (resize_le w h hw hh).2, by norm_num [resize]⟩

theorem resize_never_enlarges_witness :
    (resize 2000 1000).1 ≤ 2000 ∧ (resize 2000 1000).2 ≤ 1000 ∧
    resize 2000 1000 = ((1024 : ℚ), (512 : ℚ)) :=
  resize_never_enlarges 2000 1000 (by norm_num) (by norm_num)

/-- C7: every quality value handed to the lossy encoder during any
invocation lies in the valid range [0, 1] (the lowest reachable value
is 0.9 - 9 * 0.1 = 0), so re-compressing an already-compressed output
never hands the encoder an out-of-range quality. -/
theorem quality_within_encoder_range (file : ImageFile) (m M q : ℚ)
    (hq : q ∈ compressTrace file m M) : 0 ≤ q ∧ q ≤ 1 := by
  cases hdec : file.decoded with
  | none =>
    rw [compressTrace_eq_of_not_decoded file m M hdec] at hq
    simp at hq
  | some wh =>
    obtain ⟨w, h⟩ := wh
    rw [compressTrace_eq_of_decoded file m M w h hdec] at hq
    obtain ⟨k, hk, htr⟩ :=
      attemptTrace_eq_range_map (file.enc (resize w h)) m M 10 (9/10)
    rw [htr] at hq
    obtain ⟨i, hik, rfl⟩ := List.mem_map.mp hq
    rw [List.mem_range] at hik
    have hi9 : (i : ℚ) ≤ 9 := by exact_mod_cast (by omega : i ≤ 9)
    have hi0 : (0 : ℚ) ≤ (i : ℚ) := Nat.cast_nonneg i
    unfold qualitySeq
    constructor <;> linarith

theorem quality_within_encoder_range_witness :
    (0 : ℚ) ≤ 9/10 ∧ (9/10 : ℚ) ≤ 1 :=
  quality_within_encoder_range oversizedFile 20 50 (9/10)
    (by norm_num [compressTrace, oversizedFile, attemptTrace, resize])

/-- C8: a source that fails to decode makes `compressImage` fail with
the decode error and the encoder is never invoked: the attempt trace
is empty, so none of the 10-attempt budget is consumed. -/
theorem compressImage_decode_failure_no_attempts (file : ImageFile)
    (m M : ℚ) (hdec : file.decoded = none) :
    compressImage file m M = .decodeFailure ∧
    compressTrace file m M = [] :=
  ⟨compressImage_eq_of_not_decoded file m M hdec,
   compressTrace_eq_of_not_decoded file m M hdec⟩

theorem compressImage_decode_failure_no_attempts_witness :
    compressImage badFile 20 50 = .decodeFailure ∧
    compressTrace badFile 20 50 = [] :=
  compressImage_decode_failure_no_attempts badFile 20 50 rfl

/-- C9: when both decoded dimensions are at most 1024 the resize step
leaves them unchanged; in particular a 500x800 input is not resized. -/
theorem resize_within_bounds_unchanged (w h : ℚ)
    (hw : w ≤ 1024) (hh : h ≤ 1024) : resize w h = (w, h) := by
  rw [resize]
  by_cases h1 : w > h
  · simp [h1, not_lt.mpr hw]
  · simp [h1, not_lt.mpr hh]

theorem resize_within_bounds_unchanged_witness :
    resize 500 800 = ((500 : ℚ), (800 : ℚ)) :=
  resize_within_bounds_unchanged 500 800 (by norm_num) (by norm_num)

/-- C10: with an inverted window (`minSizeKB > maxSizeKB`) and an
encoder that always produces output, `compressImage` still terminates
with a definite result: either some attempt with size at most
`maxSizeKB` is accepted — necessarily through the undersized branch,
since its size is also below `minSizeKB`, so the in-window branch is
unreachable — or the budget exhausts with the size-constraint
failure. -/
theorem compressImage_inverted_window (file : ImageFile) (m M w h : ℚ)
    (hdec : file.decoded = some (w, h)) (hMm : M < m)
    (henc : ∀ q, ∃ s, file.enc (resize w h) q = some s) :
    (∃ qa s, compressImage file m M = .success qa s ∧ s ≤ M ∧ s < m) ∨
    compressImage file m M = .failure (sizeErrMsg m M) := by
  rw [compressImage_eq_of_decoded file m M w h hdec]
  rcases tryCompress_total_outcome (file.enc (resize w h)) m M henc 10 (9/10)
    with ⟨qa, s, hsucc, hsM⟩ | hfail
  · exact Or.inl ⟨qa, s, hsucc, hsM, lt_of_le_of_lt hsM hMm⟩
  · exact Or.inr hfail

theorem compressImage_inverted_window_witness :
    (∃ qa s, compressImage invertedFile 50 20 = .success qa s ∧
      s ≤ 20 ∧ s < 50) ∨
    compressImage invertedFile 50 20 = .failure (sizeErrMsg 50 20) :=
  compressImage_inverted_window invertedFile 50 20 100 100 rfl
    (by norm_num) (fun _ => ⟨100, rfl⟩)

end ImageService
